import Mathlib

/-!
Verification development for the OpenCL neural-network backend front end
(src/src/neural/network_opencl.cc): the batched computation session
(OpenCLComputation) and the load-time weight preprocessing performed by the
OpenCLNetwork constructor.

Floats are modelled as real numbers.  The OpenCL compute backend's forward
pass (out of scope for the core) is a parameter mapping the encoded input
tensor to the raw policy-logit vector and the value-head hidden vector.
Helper routines of the repository that live outside the provided source file
(FullyConnectedLayer, WinogradConvolution3, Batchnorm, ceilMultiple) are
modelled from the specification, as marked in their doc comments.
-/

namespace lczero

/-- One input plane: a 64-bit occupancy mask over the board squares plus a
scalar fill value. -/
structure InputPlane where
  mask : Nat
  value : ℝ

/-- One input sample: the ordered sequence of input planes. -/
abbrev InputPlanes := List InputPlane

/-- Weight data kept by the OpenCL network for the value head
(struct OpenCLWeights, lines 45-56): the final fully-connected layer's
weights and bias, and the output counts. -/
structure OpenCLWeights where
  ip2_val_w : List ℝ
  ip2_val_b : List ℝ
  num_output_policies : Nat
  num_value_channels : Nat

/-- Modelled from the spec: FullyConnectedLayer.Softmax
(neural/blas/fully_connected_layer.cc is not under src/): subtract the
maximum logit before exponentiating, for numerical stability, and normalize
by the sum of exponentials. -/
noncomputable def Softmax (logits : List ℝ) : List ℝ :=
  let alpha := logits.foldl max (logits.headD 0)
  let exps := logits.map fun x => Real.exp (x - alpha)
  exps.map fun e => e / exps.sum

/-- Modelled from the spec: FullyConnectedLayer.Forward0D
(neural/blas/fully_connected_layer.cc is not under src/): the dot product
of the value-head hidden vector with the final single-output weight vector. -/
def Forward0D (w x : List ℝ) : ℝ :=
  (List.zipWith (fun a b => a * b) w x).sum

/-- State of one OpenCLComputation session (lines 58-126): the accumulated
samples, and the per-sample policy and Q-value result stores. -/
structure OpenCLComputation where
  weights : OpenCLWeights
  planes : List InputPlanes
  policy_data : List (List ℝ)
  q_value : List ℝ

/-- NewComputation (lines 237-239): a fresh session holding the network's
weights, with no samples and no results. -/
def NewComputation (w : OpenCLWeights) : OpenCLComputation :=
  { weights := w, planes := [], policy_data := [], q_value := [] }

/-- AddInput (line 72): appends one sample to the batch. -/
def AddInput (c : OpenCLComputation) (input : InputPlanes) : OpenCLComputation :=
  { c with planes := c.planes ++ [input] }

/-- Plane-decoding loop of ComputeBlocking(sample) (lines 81-87): for each
plane in order, 64 consecutive entries are written; entry i holds the
plane's fill value when bit i of the mask is set and 0 otherwise. -/
def decodeSample (sample : InputPlanes) : List ℝ :=
  sample.flatMap fun plane =>
    (List.range 64).map fun i =>
      if plane.mask &&& (1 <<< i) ≠ 0 then plane.value else 0

/-- Body of ComputeBlocking(sample) (lines 80-103): decode the planes into
the dense input tensor, run the backend forward pass, softmax the raw
policy logits and append them to the policy store, and append
tanh(dot(value_hidden, ip2_val_w) + ip2_val_b[0]) to the Q-value store. -/
noncomputable def computeSampleBlocking (forward : List ℝ → List ℝ × List ℝ)
    (c : OpenCLComputation) (sample : InputPlanes) : OpenCLComputation :=
  let input_data := decodeSample sample
  let outputs := forward input_data
  let policy_data := Softmax outputs.1
  let value_data := outputs.2
  let winrate := Forward0D c.weights.ip2_val_w value_data + c.weights.ip2_val_b.getD 0 0
  { c with
    policy_data := c.policy_data ++ [policy_data],
    q_value := c.q_value ++ [Real.tanh winrate] }

/-- ComputeBlocking() (lines 76-78): processes every accumulated sample, in
insertion order. -/
noncomputable def ComputeBlocking (forward : List ℝ → List ℝ × List ℝ)
    (c : OpenCLComputation) : OpenCLComputation :=
  c.planes.foldl (computeSampleBlocking forward) c

/-- GetBatchSize (line 106): how many samples were added. -/
def GetBatchSize (c : OpenCLComputation) : Nat := c.planes.length

/-- GetQVal (line 109): the stored Q value of a sample; the unchecked vector
indexing is modelled as an Option, none when no entry is stored there. -/
def GetQVal (c : OpenCLComputation) (sample : Nat) : Option ℝ :=
  c.q_value[sample]?

/-- GetPVal (lines 112-114): the stored policy probability of a move of a
sample; unchecked vector indexing modelled as an Option. -/
def GetPVal (c : OpenCLComputation) (sample move_id : Nat) : Option ℝ :=
  (c.policy_data[sample]?).bind fun p => p[move_id]?

/-- Policy result that ComputeBlocking stores for one sample: the softmax of
the backend's raw policy logits for the decoded input tensor. -/
noncomputable def samplePolicy (forward : List ℝ → List ℝ × List ℝ) (s : InputPlanes) : List ℝ :=
  Softmax (forward (decodeSample s)).1

/-- Q-value result that ComputeBlocking stores for one sample. -/
noncomputable def sampleQValue (w : OpenCLWeights) (forward : List ℝ → List ℝ × List ℝ)
    (s : InputPlanes) : ℝ :=
  Real.tanh (Forward0D w.ip2_val_w (forward (decodeSample s)).2 + w.ip2_val_b.getD 0 0)

/-- Folding the per-sample computation over a list of samples appends, in
order, one policy vector and one Q value per sample, and leaves the weights
and the sample list untouched. -/
theorem foldl_computeSampleBlocking (forward : List ℝ → List ℝ × List ℝ)
    (l : List InputPlanes) (c : OpenCLComputation) :
    l.foldl (computeSampleBlocking forward) c =
      { c with
        policy_data := c.policy_data ++ l.map (samplePolicy forward),
        q_value := c.q_value ++ l.map (sampleQValue c.weights forward) } := by
  induction l generalizing c with
  | nil => cases c; simp
  | cons s t ih =>
    rw [List.foldl_cons, ih]
    cases c
    simp [computeSampleBlocking, samplePolicy, sampleQValue]

/-- ComputeBlocking appends one policy vector and one Q value per accumulated
sample, in insertion order. -/
theorem ComputeBlocking_eq (forward : List ℝ → List ℝ × List ℝ)
    (c : OpenCLComputation) :
    ComputeBlocking forward c =
      { c with
        policy_data := c.policy_data ++ c.planes.map (samplePolicy forward),
        q_value := c.q_value ++ c.planes.map (sampleQValue c.weights forward) } :=
  foldl_computeSampleBlocking forward c.planes c

/-- Adding a list of samples one by one appends them, in order, to the
session's sample list and changes nothing else. -/
theorem foldl_AddInput (l : List InputPlanes) (c : OpenCLComputation) :
    l.foldl AddInput c = { c with planes := c.planes ++ l } := by
  induction l generalizing c with
  | nil => cases c; simp
  | cons s t ih =>
    rw [List.foldl_cons, ih]
    cases c
    simp [AddInput]

/-- Decoding the empty sample gives the empty tensor. -/
theorem decodeSample_nil : decodeSample [] = [] := rfl

/-- Decoding a sample writes the 64 entries of the first plane, then the
entries of the remaining planes. -/
theorem decodeSample_cons (p : InputPlane) (t : InputPlanes) :
    decodeSample (p :: t) =
      ((List.range 64).map fun i =>
        if p.mask &&& (1 <<< i) ≠ 0 then p.value else 0) ++ decodeSample t := by
  simp [decodeSample]

/-- The decoded tensor has 64 entries per plane of the sample. -/
theorem length_decodeSample (sample : InputPlanes) :
    (decodeSample sample).length = 64 * sample.length := by
  induction sample with
  | nil => rfl
  | cons p t ih =>
    rw [decodeSample_cons]
    simp [ih]
    ring

/-- Entry lookup in the decoded tensor: position 64 * c + sq holds plane c's
fill value when bit sq of its mask is set, 0 otherwise. -/
theorem decodeSample_getElem? (sample : InputPlanes) (c sq : Nat)
    (hc : c < sample.length) (hsq : sq < 64) :
    (decodeSample sample)[64 * c + sq]? =
      some (if (sample.getD c ⟨0, 0⟩).mask &&& (1 <<< sq) ≠ 0
            then (sample.getD c ⟨0, 0⟩).value else 0) := by
  induction sample generalizing c with
  | nil => simp at hc
  | cons p t ih =>
    rw [decodeSample_cons]
    match c with
    | 0 =>
      rw [List.getElem?_append_left (by simpa using hsq)]
      simp [List.getElem?_range hsq]
    | Nat.succ c =>
      have h64 : 64 * (c + 1) + sq = 64 + (64 * c + sq) := by ring
      rw [h64, List.getElem?_append_right (by simp)]
      simpa using ih c (by simpa using hc)

/-- A sample whose planes all have mask 0 decodes to the all-zero tensor. -/
theorem decodeSample_all_zero (sample : InputPlanes)
    (h : ∀ p ∈ sample, p.mask = 0) :
    ∀ x ∈ decodeSample sample, x = 0 := by
  intro x hx
  rw [decodeSample] at hx
  rcases List.mem_flatMap.mp hx with ⟨p, hp, hxp⟩
  rcases List.mem_map.mp hxp with ⟨i, _, hi⟩
  rw [h p hp] at hi
  simpa using hi.symm

/-- C1: every sample is decoded into a dense tensor of 64 entries per plane;
entry [c][sq] (position 64 * c + sq) equals the plane's fill value when bit
sq of plane c's mask is set and 0.0 otherwise; a sample whose planes all
have mask 0 decodes to the all-zero tensor. -/
theorem claim_C1 (sample : InputPlanes) (c sq : Nat)
    (hc : c < sample.length) (hsq : sq < 64) :
    (decodeSample sample).length = 64 * sample.length ∧
    (decodeSample sample)[64 * c + sq]? =
      some (if (sample.getD c ⟨0, 0⟩).mask &&& (1 <<< sq) ≠ 0
            then (sample.getD c ⟨0, 0⟩).value else 0) ∧
    ((∀ p ∈ sample, p.mask = 0) → ∀ x ∈ decodeSample sample, x = 0) :=
  ⟨length_decodeSample sample, decodeSample_getElem? sample c sq hc hsq,
   decodeSample_all_zero sample⟩

/-- Concrete one-plane sample used to witness C1. -/
noncomputable def exampleSample : InputPlanes := [{ mask := 1, value := 5 }]

/-- Witness for C1 at a concrete one-plane sample, plane 0, bit 0. -/
theorem claim_C1_witness :
    (0 < exampleSample.length ∧ 0 < 64) ∧
    ((decodeSample exampleSample).length = 64 * exampleSample.length ∧
     (decodeSample exampleSample)[64 * 0 + 0]? =
       some (if (exampleSample.getD 0 ⟨0, 0⟩).mask &&& (1 <<< 0) ≠ 0
             then (exampleSample.getD 0 ⟨0, 0⟩).value else 0) ∧
     ((∀ p ∈ exampleSample, p.mask = 0) → ∀ x ∈ decodeSample exampleSample, x = 0)) :=
  ⟨⟨by decide, by decide⟩, claim_C1 exampleSample 0 0 (by decide) (by decide)⟩

/-- C2: after exactly n calls to AddInput since session creation,
GetBatchSize returns n (for n = 0, 1, and any larger n). -/
theorem claim_C2 (w : OpenCLWeights) (samples : List InputPlanes) :
    GetBatchSize (samples.foldl AddInput (NewComputation w)) = samples.length := by
  rw [foldl_AddInput]
  simp [GetBatchSize, NewComputation]

/-- GetQVal on a computed session returns, for every in-range index, the Q
value stored for the sample at that index. -/
theorem GetQVal_computed (w : OpenCLWeights) (forward : List ℝ → List ℝ × List ℝ)
    (samples : List InputPlanes) (i : Nat) (hi : i < samples.length) :
    GetQVal (ComputeBlocking forward (samples.foldl AddInput (NewComputation w))) i =
      some (sampleQValue w forward (samples.getD i [])) := by
  have hgd : samples.getD i [] = samples[i] := by
    simp [List.getD_eq_getElem?_getD, List.getElem?_eq_getElem hi]
  rw [hgd, foldl_AddInput, ComputeBlocking_eq]
  simp [GetQVal, NewComputation, List.getElem?_eq_getElem, List.getElem_map, hi]

/-- GetPVal on a computed session returns, for every in-range pair of
indices, the stored policy entry of the sample at that index. -/
theorem GetPVal_computed (w : OpenCLWeights) (forward : List ℝ → List ℝ × List ℝ)
    (samples : List InputPlanes) (i m : Nat) (hi : i < samples.length)
    (hm : m < (samplePolicy forward (samples.getD i [])).length) :
    GetPVal (ComputeBlocking forward (samples.foldl AddInput (NewComputation w))) i m =
      some ((samplePolicy forward (samples.getD i [])).getD m 0) := by
  have hgd : samples.getD i [] = samples[i] := by
    simp [List.getD_eq_getElem?_getD, List.getElem?_eq_getElem hi]
  rw [hgd] at hm ⊢
  have hm' : m < (samplePolicy forward samples[i]).length := hm
  rw [foldl_AddInput, ComputeBlocking_eq]
  simp [GetPVal, NewComputation, List.getElem?_eq_getElem, List.getElem_map, hi]
  rw [List.getElem?_eq_getElem hm']
  simp [List.getD_eq_getElem?_getD, List.getElem?_eq_getElem hm']

/-- C3: ComputeBlocking processes the accumulated samples in insertion
order; for every index i below the batch size, GetQVal i and GetPVal i
return exactly the decoded value and policy results of sample i. -/
theorem claim_C3 (w : OpenCLWeights) (forward : List ℝ → List ℝ × List ℝ)
    (samples : List InputPlanes) (i m : Nat) (hi : i < samples.length)
    (hm : m < (samplePolicy forward (samples.getD i [])).length) :
    GetQVal (ComputeBlocking forward (samples.foldl AddInput (NewComputation w))) i =
      some (sampleQValue w forward (samples.getD i [])) ∧
    GetPVal (ComputeBlocking forward (samples.foldl AddInput (NewComputation w))) i m =
      some ((samplePolicy forward (samples.getD i [])).getD m 0) :=
  ⟨GetQVal_computed w forward samples i hi,
   GetPVal_computed w forward samples i m hi hm⟩

/-- Concrete backend forward stub used by the witnesses: one policy logit,
one value channel. -/
noncomputable def exampleForward : List ℝ → List ℝ × List ℝ := fun _ => ([5], [0])

/-- Concrete value-head weights used by the witnesses. -/
noncomputable def exampleWeightsOCL : OpenCLWeights :=
  { ip2_val_w := [1], ip2_val_b := [0],
    num_output_policies := 1, num_value_channels := 1 }

/-- Concrete one-sample batch (the sample has no planes) used by the
witnesses. -/
def exampleSamples : List InputPlanes := [[]]

/-- Witness for C3 at a concrete one-sample session. -/
theorem claim_C3_witness :
    (0 < exampleSamples.length ∧
     0 < (samplePolicy exampleForward (exampleSamples.getD 0 [])).length) ∧
    (GetQVal (ComputeBlocking exampleForward
        (exampleSamples.foldl AddInput (NewComputation exampleWeightsOCL))) 0 =
      some (sampleQValue exampleWeightsOCL exampleForward (exampleSamples.getD 0 [])) ∧
     GetPVal (ComputeBlocking exampleForward
        (exampleSamples.foldl AddInput (NewComputation exampleWeightsOCL))) 0 0 =
      some ((samplePolicy exampleForward (exampleSamples.getD 0 [])).getD 0 0)) :=
  ⟨⟨by decide, by simp [samplePolicy, Softmax, exampleForward, exampleSamples]⟩,
   claim_C3 exampleWeightsOCL exampleForward exampleSamples 0 0 (by decide)
     (by simp [samplePolicy, Softmax, exampleForward, exampleSamples])⟩

/-- C4: the stored policy is a valid probability distribution for any
(finite) logit vector: every entry of the softmax is nonnegative and the
entries sum to 1 within the 1e-5 tolerance (over the reals the sum is
exactly 1; stability in the implementation comes from subtracting the
maximum logit before exponentiating, as the Softmax definition does). -/
theorem claim_C4 (logits : List ℝ) (h : logits ≠ []) :
    (∀ p ∈ Softmax logits, 0 ≤ p) ∧ |(Softmax logits).sum - 1| ≤ 1 / 100000 := by
  have hS : Softmax logits =
      (logits.map fun x => Real.exp (x - logits.foldl max (logits.headD 0))).map
        fun e =>
          e / (logits.map fun x => Real.exp (x - logits.foldl max (logits.headD 0))).sum := by
    rw [Softmax]
  set exps := logits.map fun x => Real.exp (x - logits.foldl max (logits.headD 0))
    with hexps
  have hne : exps ≠ [] := by
    rw [hexps, Ne, List.map_eq_nil_iff]
    exact h
  have hpos : 0 < exps.sum := by
    apply List.sum_pos
    · intro a ha
      rcases List.mem_map.mp ha with ⟨x, _, rfl⟩
      exact Real.exp_pos _
    · exact hne
  constructor
  · intro p hp
    rw [hS] at hp
    rcases List.mem_map.mp hp with ⟨e, he, rfl⟩
    have he0 : 0 < e := by
      rcases List.mem_map.mp he with ⟨x, _, rfl⟩
      exact Real.exp_pos _
    exact div_nonneg he0.le hpos.le
  · rw [hS]
    have hsum : (exps.map fun e => e / exps.sum).sum = exps.sum * (exps.sum)⁻¹ := by
      simp only [div_eq_mul_inv]
      rw [List.sum_map_mul_right]
      simp
    rw [hsum, mul_inv_cancel₀ hpos.ne']
    norm_num

/-- Witness for C4 at the concrete logit vector with one zero entry. -/
theorem claim_C4_witness :
    (([0] : List ℝ) ≠ []) ∧
    ((∀ p ∈ Softmax [0], 0 ≤ p) ∧ |(Softmax [0]).sum - 1| ≤ 1 / 100000) :=
  ⟨by simp, claim_C4 [0] (by simp)⟩

/-- Hyperbolic tangent stays strictly below 1. -/
theorem Real_tanh_lt_one (x : ℝ) : Real.tanh x < 1 := by
  rw [Real.tanh_eq_sinh_div_cosh, div_lt_one (Real.cosh_pos x)]
  exact Real.sinh_lt_cosh x

/-- Hyperbolic tangent stays strictly above -1. -/
theorem neg_one_lt_Real_tanh (x : ℝ) : -1 < Real.tanh x := by
  have h := Real_tanh_lt_one (-x)
  rw [Real.tanh_neg] at h
  linarith

/-- Hyperbolic tangent vanishes exactly at 0. -/
theorem Real_tanh_eq_zero_iff (x : ℝ) : Real.tanh x = 0 ↔ x = 0 := by
  rw [Real.tanh_eq_sinh_div_cosh, div_eq_zero_iff]
  constructor
  · rintro (hs | hc)
    · exact Real.sinh_eq_zero.mp hs
    · exact absurd hc (ne_of_gt (Real.cosh_pos x))
  · intro hx
    subst hx
    left
    exact Real.sinh_zero

/-- C5: the stored value returned by GetQVal equals
tanh(dot(value_hidden, ip2_val_w) + ip2_val_b[0]); it lies strictly within
(-1, 1), and it is 0 exactly when the dot product plus bias is exactly 0. -/
theorem claim_C5 (w : OpenCLWeights) (forward : List ℝ → List ℝ × List ℝ)
    (samples : List InputPlanes) (i : Nat) (hi : i < samples.length) :
    ∃ r, GetQVal (ComputeBlocking forward
        (samples.foldl AddInput (NewComputation w))) i = some r ∧
      r = Real.tanh (Forward0D w.ip2_val_w
            (forward (decodeSample (samples.getD i []))).2 + w.ip2_val_b.getD 0 0) ∧
      -1 < r ∧ r < 1 ∧
      (r = 0 ↔ Forward0D w.ip2_val_w
          (forward (decodeSample (samples.getD i []))).2 + w.ip2_val_b.getD 0 0 = 0) :=
  ⟨sampleQValue w forward (samples.getD i []),
   GetQVal_computed w forward samples i hi, rfl,
   neg_one_lt_Real_tanh _, Real_tanh_lt_one _, Real_tanh_eq_zero_iff _⟩

/-- Witness for C5 at a concrete one-sample session. -/
theorem claim_C5_witness :
    0 < exampleSamples.length ∧
    (∃ r, GetQVal (ComputeBlocking exampleForward
        (exampleSamples.foldl AddInput (NewComputation exampleWeightsOCL))) 0 = some r ∧
      r = Real.tanh (Forward0D exampleWeightsOCL.ip2_val_w
            (exampleForward (decodeSample (exampleSamples.getD 0 []))).2 +
            exampleWeightsOCL.ip2_val_b.getD 0 0) ∧
      -1 < r ∧ r < 1 ∧
      (r = 0 ↔ Forward0D exampleWeightsOCL.ip2_val_w
          (exampleForward (decodeSample (exampleSamples.getD 0 []))).2 +
          exampleWeightsOCL.ip2_val_b.getD 0 0 = 0)) :=
  ⟨by decide, claim_C5 exampleWeightsOCL exampleForward exampleSamples 0 (by decide)⟩

/-- Modelled from the spec: ceilMultiple (utility routine, not under src/):
rounds a up to the next multiple of b (tile padding: enlarging a dimension
to the next multiple of a block size). -/
def ceilMultiple (a b : Nat) : Nat := if a % b = 0 then a else a + (b - a % b)

/-- Output-channel padding m_ceil (line 169): the channel count rounded up
to the M work-group multiple mwg and then to the vector width vwm. -/
def m_ceil (channels mwg vwm : Nat) : Nat :=
  ceilMultiple (ceilMultiple channels mwg) vwm

/-- Input-channel padding k_ceil (line 170): the input channel count rounded
up to the K work-group multiple kwg and then to the vector width vwm. -/
def k_ceil (inputChannels kwg vwm : Nat) : Nat :=
  ceilMultiple (ceilMultiple inputChannels kwg) vwm

/-- Rounding up never shrinks the dimension. -/
theorem le_ceilMultiple (a b : Nat) : a ≤ ceilMultiple a b := by
  rw [ceilMultiple]
  split
  · exact Nat.le_refl a
  · exact Nat.le_add_right a _

/-- Rounding up to a positive block size yields a multiple of it. -/
theorem dvd_ceilMultiple (a b : Nat) (hb : 0 < b) : b ∣ ceilMultiple a b := by
  rw [ceilMultiple]
  split
  · exact Nat.dvd_of_mod_eq_zero (by assumption)
  · have hm : a % b < b := Nat.mod_lt _ hb
    have hd := Nat.div_add_mod a b
    have he : b * (a / b + 1) = b * (a / b) + b := by ring
    exact ⟨a / b + 1, by omega⟩

/-- Modelled from the spec: the 4x3 Winograd G matrix used to transform a
3x3 filter into the 4x4 Winograd domain (alpha = 4). -/
noncomputable def winogradG (i j : Nat) : ℝ :=
  match i, j with
  | 0, 0 => 1
  | 0, 1 => 0
  | 0, 2 => 0
  | 1, 0 => 1 / 2
  | 1, 1 => 1 / 2
  | 1, 2 => 1 / 2
  | 2, 0 => 1 / 2
  | 2, 1 => -(1 / 2)
  | 2, 2 => 1 / 2
  | 3, 0 => 0
  | 3, 1 => 0
  | 3, 2 => 1
  | _, _ => 0

/-- Modelled from the spec: WinogradConvolution3.TransformF
(neural/blas/winograd_convolution3.cc is not under src/): Winograd
transform of each raw 3x3 filter to a 4x4-equivalent coefficient set
(alpha = 4: 16 sub-tiles in place of the original 9 taps); per
(output, input) channel pair the coefficient block is G g Gt, and sub-tile
t of channel pair (o, c) is stored at index
t * (channels * outputs) + c * outputs + o. -/
noncomputable def TransformF (f : List ℝ) (outputs channels : Nat) : List ℝ :=
  (List.range (16 * channels * outputs)).map fun idx =>
    let t := idx / (channels * outputs)
    let rem := idx % (channels * outputs)
    let c := rem / outputs
    let o := rem % outputs
    ((List.range 3).map fun r =>
      ((List.range 3).map fun s =>
        winogradG (t / 4) r * f.getD (o * (channels * 9) + c * 9 + r * 3 + s) 0 *
          winogradG (t % 4) s).sum).sum

/-- Modelled from the spec: WinogradConvolution3.ZeropadU (not under src/):
zero-pads the Winograd-domain filter along the output-channel dimension
from outputs to outputs_pad and along the input-channel dimension from
channels to channels_pad; every padding entry is 0.0. Sub-tile t of
channel pair (o, c) sits at index
t * (channels_pad * outputs_pad) + c * outputs_pad + o. -/
noncomputable def ZeropadU (U : List ℝ)
    (outputs channels outputs_pad channels_pad : Nat) : List ℝ :=
  (List.range (16 * channels_pad * outputs_pad)).map fun idx =>
    let t := idx / (channels_pad * outputs_pad)
    let rem := idx % (channels_pad * outputs_pad)
    let c := rem / outputs_pad
    let o := rem % outputs_pad
    if c < channels ∧ o < outputs then
      U.getD (t * (channels * outputs) + c * outputs + o) 0
    else 0

/-- One convolution layer of the raw weights: flat 3x3 filter tensor,
per-channel biases and batch-norm statistics. -/
structure ConvBlock where
  weights : List ℝ
  biases : List ℝ
  bn_means : List ℝ
  bn_stddivs : List ℝ

/-- One residual block: two convolution layers. -/
structure ResidualBlock where
  conv1 : ConvBlock
  conv2 : ConvBlock

/-- Raw trained weights as consumed by the OpenCLNetwork constructor. -/
structure Weights where
  input : ConvBlock
  residual : List ResidualBlock
  policy : ConvBlock
  value : ConvBlock
  ip_pol_w : List ℝ
  ip_pol_b : List ℝ
  ip1_val_w : List ℝ
  ip1_val_b : List ℝ
  ip2_val_w : List ℝ
  ip2_val_b : List ℝ

/-- Modelled from the spec: Batchnorm.OffsetMeans (neural/blas/batchnorm.cc
is not under src/): the additive offset folded from the batch-norm
statistics, the negated per-channel mean. -/
noncomputable def OffsetMeans (c : ConvBlock) : List ℝ :=
  c.bn_means.map fun m => -m

/-- Modelled from the spec: Batchnorm.InvertStddev (neural/blas/batchnorm.cc
is not under src/): the multiplicative per-channel inverse standard
deviation. -/
noncomputable def InvertStddev (c : ConvBlock) : List ℝ :=
  c.bn_stddivs.map fun s => 1 / s

/-- One transformed convolution layer as handed to the backend graph
builder: the zero-padded Winograd-domain filter and the folded batch-norm
vectors. -/
structure TransformedLayer where
  Upad : List ℝ
  bn_means : List ℝ
  bn_stddivs : List ℝ

/-- Every layer descriptor produced by weight preprocessing, in network
order. -/
structure PreprocessedNet where
  input_layer : TransformedLayer
  residual_layers : List (TransformedLayer × TransformedLayer)
  policy_bn_means : List ℝ
  policy_bn_stddivs : List ℝ
  value_bn_means : List ℝ
  value_bn_stddivs : List ℝ

/-- Modelled from the spec: kInputPlanes, the input channel count
(neural/network.h is not under src/; the source comment gives 112). -/
def kInputPlanes : Nat := 112

/-- Weight preprocessing performed by the OpenCLNetwork constructor
(lines 141-234): Winograd-transform and zero-pad every convolution filter
(the input convolution and both convolutions of every residual block) to
the padded dimensions m_ceil and k_ceil derived from the backend tuning
parameters mwg, kwg and vwm, and fold the batch-norm statistics of every
layer, in network order. -/
noncomputable def preprocessWeights (weights : Weights) (mwg kwg vwm : Nat) :
    PreprocessedNet :=
  let inputChannels := kInputPlanes
  let channels := weights.input.biases.length
  let mceil := m_ceil channels mwg vwm
  let kceil := k_ceil inputChannels kwg vwm
  let input_conv_weights := TransformF weights.input.weights channels inputChannels
  let Upad := ZeropadU input_conv_weights channels inputChannels mceil kceil
  { input_layer :=
      { Upad := Upad,
        bn_means := OffsetMeans weights.input,
        bn_stddivs := InvertStddev weights.input },
    residual_layers := weights.residual.map fun r =>
      ({ Upad := ZeropadU (TransformF r.conv1.weights channels channels)
             channels channels mceil mceil,
         bn_means := OffsetMeans r.conv1,
         bn_stddivs := InvertStddev r.conv1 },
       { Upad := ZeropadU (TransformF r.conv2.weights channels channels)
             channels channels mceil mceil,
         bn_means := OffsetMeans r.conv2,
         bn_stddivs := InvertStddev r.conv2 }),
    policy_bn_means := OffsetMeans weights.policy,
    policy_bn_stddivs := InvertStddev weights.policy,
    value_bn_means := OffsetMeans weights.value,
    value_bn_stddivs := InvertStddev weights.value }

/-- Entry lookup in the zero-padded filter: inside the original channel
ranges the entry comes from U, outside them it is 0. -/
theorem ZeropadU_getD (U : List ℝ) (outputs channels opad cpad t c o : Nat)
    (ht : t < 16) (hc : c < cpad) (ho : o < opad) :
    (ZeropadU U outputs channels opad cpad).getD
      (t * (cpad * opad) + c * opad + o) 0 =
    if c < channels ∧ o < outputs then
      U.getD (t * (channels * outputs) + c * outputs + o) 0
    else 0 := by
  have hopad : 0 < opad := by omega
  have hcpad : 0 < cpad := by omega
  have hco : c * opad + o < cpad * opad := by
    have h1 : (c + 1) * opad = c * opad + opad := by ring
    have h2 : (c + 1) * opad ≤ cpad * opad := Nat.mul_le_mul_right _ (by omega)
    omega
  have hidx : t * (cpad * opad) + c * opad + o < 16 * cpad * opad := by
    have h15 : t * (cpad * opad) ≤ 15 * (cpad * opad) := Nat.mul_le_mul_right _ (by omega)
    have h16 : 16 * cpad * opad = 15 * (cpad * opad) + cpad * opad := by ring
    omega
  have hq : 0 < cpad * opad := Nat.mul_pos hcpad hopad
  have h1 : (t * (cpad * opad) + c * opad + o) / (cpad * opad) = t := by
    rw [Nat.add_assoc, Nat.mul_comm t (cpad * opad), Nat.mul_add_div hq,
      Nat.div_eq_of_lt hco, Nat.add_zero]
  have h2 : (t * (cpad * opad) + c * opad + o) % (cpad * opad) = c * opad + o := by
    rw [Nat.add_assoc, Nat.mul_comm t (cpad * opad), Nat.mul_add_mod, Nat.mod_eq_of_lt hco]
  have h3 : (c * opad + o) / opad = c := by
    rw [Nat.mul_comm c opad, Nat.mul_add_div hopad, Nat.div_eq_of_lt ho, Nat.add_zero]
  have h4 : (c * opad + o) % opad = o := by
    rw [Nat.mul_comm c opad, Nat.mul_add_mod, Nat.mod_eq_of_lt ho]
  rw [ZeropadU, List.getD_eq_getElem?_getD, List.getElem?_map,
    List.getElem?_range hidx]
  simp only [Option.map_some', Option.getD_some]
  simp only [h1, h2, h3, h4]

/-- Counterexample to C6 as stated: with channel count 1 and backend tuning
parameters mwg = 2 (the M-tile size) and vwm = 3 (the vector width), the
padded output-channel dimension computed at line 169 is 3, which is not an
exact multiple of the M-tile size 2. -/
theorem claim_C6_counterexample : m_ceil 1 2 3 = 3 ∧ ¬ 2 ∣ m_ceil 1 2 3 := by
  decide

/-- C6 as amended: the transformed filter is zero-padded to the dimensions
m_ceil and k_ceil, each obtained by rounding to the work-group multiple
(mwg, kwg) and then to the vector width vwm; for positive tuning parameters
the padded output-channel dimension is an exact multiple of vwm, at least
the M-tile rounding of the channel count, and at least the original channel
count (the input-channel dimension likewise), and every padding entry is
exactly 0.0. -/
theorem claim_C6_amended (channels inputChannels mwg kwg vwm : Nat)
    (U : List ℝ) (t c o : Nat)
    (hvwm : 0 < vwm)
    (ht : t < 16) (hc : c < k_ceil inputChannels kwg vwm)
    (ho : o < m_ceil channels mwg vwm)
    (hpad : inputChannels ≤ c ∨ channels ≤ o) :
    vwm ∣ m_ceil channels mwg vwm ∧
    ceilMultiple channels mwg ≤ m_ceil channels mwg vwm ∧
    channels ≤ m_ceil channels mwg vwm ∧
    vwm ∣ k_ceil inputChannels kwg vwm ∧
    inputChannels ≤ k_ceil inputChannels kwg vwm ∧
    (ZeropadU U channels inputChannels (m_ceil channels mwg vwm)
        (k_ceil inputChannels kwg vwm)).getD
      (t * (k_ceil inputChannels kwg vwm * m_ceil channels mwg vwm) +
        c * m_ceil channels mwg vwm + o) 0 = 0 := by
  refine ⟨dvd_ceilMultiple _ _ hvwm,
    le_ceilMultiple _ _,
    Nat.le_trans (le_ceilMultiple channels mwg) (le_ceilMultiple _ _),
    dvd_ceilMultiple _ _ hvwm,
    Nat.le_trans (le_ceilMultiple inputChannels kwg) (le_ceilMultiple _ _),
    ?_⟩
  rw [ZeropadU_getD U channels inputChannels _ _ t c o ht hc ho]
  rw [if_neg]
  omega

/-- Witness for the amended C6: channel count 1, input channel count 1,
mwg = 2, kwg = 1, vwm = 1, padding position o = 1 of sub-tile 0. -/
theorem claim_C6_amended_witness :
    (0 < 1 ∧ 0 < 16 ∧ 0 < k_ceil 1 1 1 ∧ 1 < m_ceil 1 2 1 ∧ (1 ≤ 0 ∨ 1 ≤ 1)) ∧
    (1 ∣ m_ceil 1 2 1 ∧
     ceilMultiple 1 2 ≤ m_ceil 1 2 1 ∧
     1 ≤ m_ceil 1 2 1 ∧
     1 ∣ k_ceil 1 1 1 ∧
     1 ≤ k_ceil 1 1 1 ∧
     (ZeropadU [] 1 1 (m_ceil 1 2 1) (k_ceil 1 1 1)).getD
       (0 * (k_ceil 1 1 1 * m_ceil 1 2 1) + 0 * m_ceil 1 2 1 + 1) 0 = 0) :=
  ⟨⟨by decide, by decide, by decide, by decide, by decide⟩,
   claim_C6_amended 1 1 2 1 1 [] 0 0 1 (by decide) (by decide) (by decide)
     (by decide) (by decide)⟩

/-- C7: weight preprocessing is deterministic and pure: equal raw weight
sets and equal backend tuning parameters always produce identical
Winograd-transformed, padded filter tensors and folded batch-norm vectors;
no other state enters the computation. -/
theorem claim_C7 (w1 w2 : Weights) (mwg1 kwg1 vwm1 mwg2 kwg2 vwm2 : Nat)
    (hw : w1 = w2) (hm : mwg1 = mwg2) (hk : kwg1 = kwg2) (hv : vwm1 = vwm2) :
    preprocessWeights w1 mwg1 kwg1 vwm1 = preprocessWeights w2 mwg2 kwg2 vwm2 := by
  rw [hw, hm, hk, hv]

/-- Concrete one-channel convolution layer used by the C7 witness. -/
noncomputable def exampleConvBlock : ConvBlock :=
  { weights := [1], biases := [0], bn_means := [0], bn_stddivs := [1] }

/-- Concrete raw weight set used by the C7 witness. -/
noncomputable def exampleWeights : Weights :=
  { input := exampleConvBlock, residual := [],
    policy := exampleConvBlock, value := exampleConvBlock,
    ip_pol_w := [1], ip_pol_b := [0],
    ip1_val_w := [1], ip1_val_b := [0],
    ip2_val_w := [1], ip2_val_b := [0] }

/-- Witness for C7: preprocessing the same concrete weights with the same
tuning parameters twice yields the same result. -/
theorem claim_C7_witness :
    (exampleWeights = exampleWeights ∧ 1 = 1 ∧ 1 = 1 ∧ 1 = 1) ∧
    preprocessWeights exampleWeights 1 1 1 = preprocessWeights exampleWeights 1 1 1 :=
  ⟨⟨rfl, rfl, rfl, rfl⟩,
   claim_C7 exampleWeights exampleWeights 1 1 1 1 1 1 rfl rfl rfl rfl⟩

/-- Counterexample to C8 as stated: the implementation rejects nothing.
After ComputeBlocking on a one-sample session, AddInput is silently
accepted and the batch grows to 2; and reading GetQVal before any
computation finds no stored result (unchecked indexing into an empty
store) instead of an assertion or fatal fault. -/
theorem claim_C8_counterexample :
    GetBatchSize
      (AddInput (ComputeBlocking (fun _ => ([], []))
        (AddInput (NewComputation ⟨[], [], 0, 0⟩) [])) []) = 2 ∧
    GetQVal (NewComputation ⟨[], [], 0, 0⟩) 0 = none := by
  constructor
  · rfl
  · rfl

/-- C8 as amended: the implementation performs no defensive checks.
AddInput after ComputeBlocking is silently accepted and appends the
sample; GetQVal and GetPVal before computation, or at an index at or above
the number of stored results, find no stored entry (the unchecked C++
vector access is undefined behavior, modelled as none) rather than
triggering an assertion. -/
theorem claim_C8_amended (w : OpenCLWeights) (f : List ℝ → List ℝ × List ℝ)
    (c : OpenCLComputation) (s : InputPlanes)
    (samples : List InputPlanes) (i m : Nat)
    (hi : samples.length ≤ i) :
    AddInput (ComputeBlocking f c) s =
      { ComputeBlocking f c with planes := (ComputeBlocking f c).planes ++ [s] } ∧
    GetQVal (NewComputation w) i = none ∧
    GetPVal (NewComputation w) i m = none ∧
    GetQVal (ComputeBlocking f (samples.foldl AddInput (NewComputation w))) i = none := by
  refine ⟨rfl, ?_, ?_, ?_⟩
  · simp [GetQVal, NewComputation]
  · simp [GetPVal, NewComputation]
  · rw [foldl_AddInput, ComputeBlocking_eq]
    simp [GetQVal, NewComputation]
    exact hi

/-- Witness for the amended C8 at a concrete empty session. -/
theorem claim_C8_amended_witness :
    ([] : List InputPlanes).length ≤ 0 ∧
    (AddInput (ComputeBlocking (fun _ => ([], [])) (NewComputation ⟨[], [], 0, 0⟩)) [] =
      { ComputeBlocking (fun _ => ([], [])) (NewComputation ⟨[], [], 0, 0⟩) with
        planes := (ComputeBlocking (fun _ => ([], []))
          (NewComputation ⟨[], [], 0, 0⟩)).planes ++ [[]] } ∧
     GetQVal (NewComputation ⟨[], [], 0, 0⟩) 0 = none ∧
     GetPVal (NewComputation ⟨[], [], 0, 0⟩) 0 0 = none ∧
     GetQVal (ComputeBlocking (fun _ => ([], []))
       (([] : List InputPlanes).foldl AddInput (NewComputation ⟨[], [], 0, 0⟩))) 0 = none) :=
  ⟨by decide,
   claim_C8_amended ⟨[], [], 0, 0⟩ (fun _ => ([], []))
     (NewComputation ⟨[], [], 0, 0⟩) [] [] 0 0 (by decide)⟩

/-- C9: calling ComputeBlocking on a session with no samples is a no-op
producing an empty result set: for every backend forward function the
session is left unchanged (so no policy or value result is stored and no
per-sample work is performed), not an error. -/
theorem claim_C9 (f : List ℝ → List ℝ × List ℝ) (c : OpenCLComputation)
    (h : c.planes = []) : ComputeBlocking f c = c := by
  rw [ComputeBlocking, h]
  rfl

/-- Witness for C9 at a concrete fresh session. -/
theorem claim_C9_witness :
    (NewComputation ⟨[], [], 0, 0⟩).planes = [] ∧
    ComputeBlocking (fun _ => ([], [])) (NewComputation ⟨[], [], 0, 0⟩) =
      NewComputation ⟨[], [], 0, 0⟩ :=
  ⟨rfl, claim_C9 (fun _ => ([], [])) (NewComputation ⟨[], [], 0, 0⟩) rfl⟩

/-- C10: a second ComputeBlocking call on a computed session holding n
samples re-processes all n samples and appends n further policy vectors
and n further Q values, so both result stores hold 2n entries, while
GetBatchSize still returns n; the earlier results are never cleared or
overwritten (the new stores extend the old ones). -/
theorem claim_C10 (w : OpenCLWeights) (f : List ℝ → List ℝ × List ℝ)
    (samples : List InputPlanes) :
    (ComputeBlocking f (ComputeBlocking f
      (samples.foldl AddInput (NewComputation w)))).policy_data.length =
        2 * samples.length ∧
    (ComputeBlocking f (ComputeBlocking f
      (samples.foldl AddInput (NewComputation w)))).q_value.length =
        2 * samples.length ∧
    GetBatchSize (ComputeBlocking f (ComputeBlocking f
      (samples.foldl AddInput (NewComputation w)))) = samples.length ∧
    (ComputeBlocking f (ComputeBlocking f
      (samples.foldl AddInput (NewComputation w)))).policy_data =
      (ComputeBlocking f (samples.foldl AddInput (NewComputation w))).policy_data ++
        samples.map (samplePolicy f) ∧
    (ComputeBlocking f (ComputeBlocking f
      (samples.foldl AddInput (NewComputation w)))).q_value =
      (ComputeBlocking f (samples.foldl AddInput (NewComputation w))).q_value ++
        samples.map (sampleQValue w f) := by
  have h0 : samples.foldl AddInput (NewComputation w) =
      { weights := w, planes := samples, policy_data := [], q_value := [] } := by
    rw [foldl_AddInput]
    rfl
  have h1 : ComputeBlocking f (samples.foldl AddInput (NewComputation w)) =
      { weights := w, planes := samples,
        policy_data := samples.map (samplePolicy f),
        q_value := samples.map (sampleQValue w f) } := by
    rw [h0, ComputeBlocking_eq]
    rfl
  have h2 : ComputeBlocking f (ComputeBlocking f
      (samples.foldl AddInput (NewComputation w))) =
      { weights := w, planes := samples,
        policy_data := samples.map (samplePolicy f) ++ samples.map (samplePolicy f),
        q_value := samples.map (sampleQValue w f) ++ samples.map (sampleQValue w f) } := by
    rw [h1, ComputeBlocking_eq]
  rw [h2, h1]
  refine ⟨?_, ?_, ?_, rfl, rfl⟩
  · simp
    omega
  · simp
    omega
  · simp [GetBatchSize]

end lczero
